import Mathlib

/-!
A shallow embedding of the review merge engine of `src/MERGER.py`
(class `WalmartReviewMerger`), together with proofs of the
specification claims about deduplication, identity resolution,
sentiment filtering, rating sanitization and aggregate statistics.

Python values flowing through the merger are modelled by the inductive
type `JVal` (JSON-like data).  Python floats are modelled by exact
fractions (`PyNum`): every numeric literal the merger manipulates is
decimal, and no claim depends on binary floating-point rounding.
Operations that can raise in Python are modelled in `Except PyErr`.
-/

namespace Merge

/-- Python numbers (int and float conflated), modelled as exact
fractions `num / den` with positive denominator.  Kept unnormalized so
that all arithmetic is kernel-computable. -/
structure PyNum where
  num : Int
  den : Nat
deriving DecidableEq

def PyNum.ofInt (n : Int) : PyNum := ⟨n, 1⟩

instance : OfNat PyNum n := ⟨PyNum.ofInt n⟩

/-- Numeric zero test (Python float truthiness / `== 0`). -/
def PyNum.isZero (q : PyNum) : Bool := q.num == 0

/-- `a ≤ b` by cross multiplication (denominators are positive). -/
def PyNum.le (a b : PyNum) : Bool :=
  decide (a.num * (b.den : Int) ≤ b.num * (a.den : Int))

/-- `a < b` by cross multiplication. -/
def PyNum.lt (a b : PyNum) : Bool :=
  decide (a.num * (b.den : Int) < b.num * (a.den : Int))

def PyNum.add (a b : PyNum) : PyNum :=
  ⟨a.num * b.den + b.num * a.den, a.den * b.den⟩

/-- Division by a (positive) natural count, as used for averages. -/
def PyNum.divNat (a : PyNum) (n : Nat) : PyNum := ⟨a.num, a.den * n⟩

/-- Multiplication by a natural number (used for `* 100`). -/
def PyNum.mulNat (a : PyNum) (n : Nat) : PyNum := ⟨a.num * n, a.den⟩

/-- Mathematical floor of the fraction (denominator positive). -/
def PyNum.floor (a : PyNum) : Int := Int.fdiv a.num a.den

/-- Python `round(x, k)`: round to `k` decimal digits, ties to even.
(Python rounds the binary float; on the exact decimal values occurring
here the two agree, and no claim depends on tie behavior.) -/
def PyNum.roundTo (a : PyNum) (k : Nat) : PyNum :=
  let p : Nat := 10 ^ k
  let scaled : PyNum := ⟨a.num * p, a.den⟩
  let f : Int := scaled.floor
  let rem2 : Int := 2 * (scaled.num - f * scaled.den)
  let r : Int :=
    if rem2 < (scaled.den : Int) then f
    else if (scaled.den : Int) < rem2 then f + 1
    else if f % 2 = 0 then f else f + 1
  ⟨r, p⟩

/-- JSON-like Python values. -/
inductive JVal where
  | null
  | bool (b : Bool)
  | num (q : PyNum)
  | str (s : String)
  | arr (elems : List JVal)
  | obj (fields : List (String × JVal))

/-- A Python dict with string keys (JSON object), as an
insertion-ordered association list with distinct keys. -/
abbrev JObj := List (String × JVal)

/-- Exceptions the merger code can raise. -/
inductive PyErr where
  | typeError
  | keyError
  | attributeError
deriving DecidableEq

/-! ### Python string primitives, over `List Char`
(core `String` library functions do not reduce in the kernel, so the
few string operations the merger uses are spelled out here). -/

/-- Characters stripped by Python `str.strip()`. -/
def pyIsSpace (c : Char) : Bool :=
  c == ' ' || c == '\t' || c == '\n' || c == '\x0d' || c == '\x0b' || c == '\x0c'

/-- Python `str.strip()`. -/
def pyStrip (l : List Char) : List Char :=
  ((l.dropWhile pyIsSpace).reverse.dropWhile pyIsSpace).reverse

/-- Python `str.lower()` (ASCII; the merger only compares ASCII data). -/
def pyLowerChars (l : List Char) : List Char := l.map Char.toLower

def sLower (s : String) : String := ⟨pyLowerChars s.data⟩

def sUpper (s : String) : String := ⟨s.data.map Char.toUpper⟩

/-- Substring containment (Python `needle in haystack` on strings). -/
def containsSub (hay pat : List Char) : Bool :=
  match hay with
  | [] => pat.isEmpty
  | _ :: t => pat.isPrefixOf hay || containsSub t pat

/-- `os.path.basename`: the part after the last slash. -/
def basenameChars (l : List Char) : List Char :=
  (l.reverse.takeWhile (fun c => c != '/')).reverse

def basename (s : String) : String := ⟨basenameChars s.data⟩

/-- Root part of `os.path.splitext`: cut at the last dot, unless every
character before that dot is itself a dot (CPython semantics). -/
def splitextRoot (s : String) : String :=
  let cs := s.data
  match (cs.reverse.findIdx? (fun c => c == '.')) with
  | none => s
  | some k =>
    let i := cs.length - 1 - k
    if (cs.take i).any (fun c => c != '.') then ⟨cs.take i⟩ else s

/-- `re.search(r'_(\d\x7b8,\x7d)_', s)`: leftmost occurrence of an
underscore, a maximal run of at least 8 digits, and an underscore;
returns the digit group. -/
def searchIdAux : List Char → Option String
  | [] => none
  | c :: rest =>
    if c == '_' then
      let digits := rest.takeWhile Char.isDigit
      if 8 ≤ digits.length && (rest.drop digits.length).headD 'x' == '_' then
        some ⟨digits⟩
      else searchIdAux rest
    else searchIdAux rest

def searchProductId (s : String) : Option String := searchIdAux s.data

/-- After a match of `walmart_reviews`, the optional trailing
underscore (`_?`, greedy) is also consumed. -/
def dropUnd : List Char → List Char
  | '_' :: t => t
  | l => l

/-- `re.sub(r'walmart_reviews_?', '', s)`: remove every occurrence,
scanning left to right (fuel-structured; fuel = length suffices since
each step consumes at least one character). -/
def subWalmartAux : Nat → List Char → List Char
  | _, [] => []
  | 0, l => l
  | Nat.succ n, c :: rest =>
    if ("walmart_reviews".data).isPrefixOf (c :: rest) then
      subWalmartAux n (dropUnd (rest.drop 14))
    else c :: subWalmartAux n rest

def subWalmartReviews (s : String) : String :=
  ⟨subWalmartAux s.data.length s.data⟩

/-- Does the 16-character tail look like `_\d\x7b8\x7d_\d\x7b6\x7d`? -/
def tsMatch (l : List Char) : Bool :=
  match l with
  | '_' :: rest =>
    (rest.take 8).length == 8 && (rest.take 8).all Char.isDigit &&
    (match rest.drop 8 with
     | '_' :: d6 => d6.length == 6 && d6.all Char.isDigit
     | _ => false)
  | _ => false

/-- `re.sub(r'_\d\x7b8\x7d_\d\x7b6\x7d$', '', s)`: strip a trailing
timestamp suffix (fixed width 16, anchored at the end). -/
def stripTimestampSuffix (s : String) : String :=
  let cs := s.data
  let n := cs.length
  if 16 ≤ n && tsMatch (cs.drop (n - 16)) then ⟨cs.take (n - 16)⟩ else s

/-- Python `str.title()`: uppercase each cased character that follows a
non-cased one, lowercase the rest. -/
def pyTitleAux : Bool → List Char → List Char
  | _, [] => []
  | prev, c :: rest =>
    if c.isAlpha then
      (if prev then c.toLower else c.toUpper) :: pyTitleAux true rest
    else c :: pyTitleAux false rest

def pyTitle (s : String) : String := ⟨pyTitleAux false s.data⟩

/-- `str.replace(a, b)` for single characters (used for spaces). -/
def replaceChar (s : String) (a b : Char) : String :=
  ⟨s.data.map (fun c => if c == a then b else c)⟩

/-! ### Python value primitives -/

/-- Python truthiness. -/
def pyTruthy : JVal → Bool
  | .null => false
  | .bool b => b
  | .num q => !q.isZero
  | .str s => !s.data.isEmpty
  | .arr xs => !xs.isEmpty
  | .obj fs => !fs.isEmpty

/-- Rendering of numbers inside `str()`.  The int/float distinction is
not tracked by `PyNum`, so integral values render as ints; no claim
depends on this rendering. -/
def numRepr (q : PyNum) : String :=
  if q.den == 1 then toString q.num
  else toString q.num ++ "/" ++ toString q.den

mutual
/-- Python `repr`, for elements of containers (string escaping is not
modelled — no claim depends on container rendering). -/
def pyRepr : JVal → String
  | .null => "None"
  | .bool true => "True"
  | .bool false => "False"
  | .num q => numRepr q
  | .str s => "\x27" ++ s ++ "\x27"
  | .arr xs => "[" ++ String.intercalate ", " (pyReprList xs) ++ "]"
  | .obj fs => "\x7b" ++ String.intercalate ", " (pyReprObj fs) ++ "\x7d"

def pyReprList : List JVal → List String
  | [] => []
  | v :: t => pyRepr v :: pyReprList t

def pyReprObj : List (String × JVal) → List String
  | [] => []
  | kv :: t => ("\x27" ++ kv.1 ++ "\x27: " ++ pyRepr kv.2) :: pyReprObj t
end

/-- Python `str()`. -/
def pyStr : JVal → String
  | .str s => s
  | v => pyRepr v

/-- Python `len(str(v))`. -/
def pyStrLen (v : JVal) : Nat := (pyStr v).data.length

/-- Python `v.lower()`: only strings have the attribute. -/
def pyLowerE : JVal → Except PyErr String
  | .str s => .ok (sLower s)
  | _ => .error .attributeError

/-- Dict lookup (keys of input objects are distinct, as in Python). -/
def jget (fs : JObj) (k : String) : Option JVal :=
  (fs.find? (fun kv => kv.1 == k)).map (fun kv => kv.2)

/-- Dict assignment: overwrite in place, or append a new key. -/
def jset (fs : JObj) (k : String) (v : JVal) : JObj :=
  if (fs.find? (fun kv => kv.1 == k)).isSome then
    fs.map (fun kv => if kv.1 == k then (k, v) else kv)
  else fs ++ [(k, v)]

/-- Python `k in v` for a string `k`: key test on dicts, substring test
on strings, membership (`==` against each element) on lists, and a
`TypeError` otherwise. -/
def pyContains (k : String) : JVal → Except PyErr Bool
  | .obj fs => .ok ((fs.find? (fun kv => kv.1 == k)).isSome)
  | .str s => .ok (containsSub s.data k.data)
  | .arr xs => .ok (xs.any (fun v => match v with | .str t => t == k | _ => false))
  | _ => .error .typeError

/-- Python `v[k]` for a string key: dict lookup (the merger only
subscripts after a successful `in` test), `TypeError` on non-dicts. -/
def pySubscript (v : JVal) (k : String) : Except PyErr JVal :=
  match v with
  | .obj fs =>
    match jget fs k with
    | some x => .ok x
    | none => .error .keyError
  | _ => .error .typeError

/-- Python `v[k] = x`: `TypeError` unless `v` is a dict. -/
def jAssign (v : JVal) (k : String) (x : JVal) : Except PyErr JVal :=
  match v with
  | .obj fs => .ok (.obj (jset fs k x))
  | _ => .error .typeError

/-- Iteration of the argument of `list.extend`: lists yield elements,
strings yield 1-character strings, dicts yield their keys. -/
def pyIterList : JVal → Except PyErr (List JVal)
  | .arr xs => .ok xs
  | .str s => .ok (s.data.map (fun c => .str ⟨[c]⟩))
  | .obj fs => .ok (fs.map (fun kv => .str kv.1))
  | _ => .error .typeError

/-- Python `float(v)`: `none` models a raised
`ValueError`/`TypeError` (always caught by the merger).  String
parsing covers signed decimal literals; exponent, infinity and
underscore forms do not occur in this data set. -/
def parseDecimal? (s : String) : Option PyNum :=
  let l := pyStrip s.data
  let (sign, l) : Int × List Char :=
    match l with
    | '-' :: t => (-1, t)
    | '+' :: t => (1, t)
    | _ => (1, l)
  let ip := l.takeWhile Char.isDigit
  let rest := l.drop ip.length
  let ipv : Nat := ip.foldl (fun a c => a * 10 + (c.toNat - 48)) 0
  match rest with
  | [] => if ip.isEmpty then none else some ⟨sign * ipv, 1⟩
  | '.' :: fp =>
    if fp.all Char.isDigit && !(ip.isEmpty && fp.isEmpty) then
      let fpv : Nat := fp.foldl (fun a c => a * 10 + (c.toNat - 48)) 0
      some ⟨sign * (ipv * 10 ^ fp.length + fpv), 10 ^ fp.length⟩
    else none
  | _ => none

def pyFloat? : JVal → Option PyNum
  | .num q => some q
  | .bool b => some (if b then 1 else 0)
  | .str s => parseDecimal? s
  | _ => none

/-! ### `extract_reviews_from_json` (MERGER.py lines 27-103) -/

/-- The `product_info` record after identity resolution: the
`product_id` is always a (non-empty) string by then. -/
structure ProductInfo where
  product_id : String
  product_name : JVal
  product_url : JVal
  source_file : String

/-- Product-level metadata pulled off the document itself
(lines 41-47).  `product_id` is passed through `str()`. -/
def initMeta (data : JVal) : Option String × JVal × JVal :=
  match data with
  | .obj fs =>
    ((jget fs "product_id").map pyStr,
     (jget fs "product_name").getD .null,
     (jget fs "product_url").getD .null)
  | _ => (none, .null, .null)

/-- One entry of the `products` array in the combined format
(lines 51-59): inject the product context into each review that lacks
it, then append the reviews.  Faithful to the evaluation order of the
source, including the `TypeError`s Python raises on non-dict elements. -/
def case1Product (acc : List JVal) (product : JVal) : Except PyErr (List JVal) := do
  let b ← pyContains "reviews" product
  if b then
    let rv ← pySubscript product "reviews"
    match rv with
    | .arr prs =>
      prs.foldlM (fun acc review => do
        let hasPid ← pyContains "product_id" review
        let review ←
          if !hasPid then do
            let pHas ← pyContains "product_id" product
            if pHas then do
              let pv ← pySubscript product "product_id"
              jAssign review "product_id" pv
            else pure review
          else pure review
        let hasName ← pyContains "product_name" review
        let review ←
          if !hasName then do
            let pHas ← pyContains "product_name" product
            if pHas then do
              let pv ← pySubscript product "product_name"
              jAssign review "product_name" pv
            else pure review
          else pure review
        pure (acc ++ [review])) acc
    | _ => pure acc
  else pure acc

/-- Sentiment-grouped `reviews` dict (lines 65-71): concatenate the
`positive`/`negative`/`neutral` arrays and then `all`. -/
def case2Grouped (rdict : JObj) : Except PyErr (List JVal) := do
  let acc ← ["positive", "negative", "neutral"].foldlM
    (fun acc st =>
      match jget rdict st with
      | some v => do
        let xs ← pyIterList v
        pure (acc ++ xs)
      | none => pure acc) ([] : List JVal)
  match jget rdict "all" with
  | some v => do
    let xs ← pyIterList v
    pure (acc ++ xs)
  | none => pure acc

/-- The three-way shape dispatch of lines 50-75. -/
def rawReviews (data : JVal) : Except PyErr (List JVal) :=
  match data with
  | .obj fs =>
    match jget fs "products" with
    | some (.arr products) => products.foldlM case1Product []
    | _ =>
      match jget fs "reviews" with
      | some (.arr rs) => .ok rs
      | some (.obj rd) => case2Grouped rd
      | _ => .ok []
  | .arr xs => .ok xs
  | _ => .ok []

/-- Truthiness of the in-progress `product_info['product_id']`
(`None` or a string). -/
def optTruthy : Option String → Bool
  | none => false
  | some s => !s.data.isEmpty

/-- Post-processing loop of lines 78-84: stamp `source_file` on every
review (a `TypeError` if a review is not a dict) and adopt the first
truthy review-level `product_id` when none is known yet. -/
def postProcess (src : String) (reviews : List JVal) (pid0 : Option String) :
    Except PyErr (List JObj × Option String) :=
  reviews.foldlM
    (fun (st : List JObj × Option String) review =>
      match review with
      | .obj fs =>
        let fs := jset fs "source_file" (.str (basename src))
        let pid :=
          match jget fs "product_id" with
          | some v =>
            if pyTruthy v && !(optTruthy st.2) then some (pyStr v) else st.2
          | none => st.2
        .ok (st.1 ++ [fs], pid)
      | _ => .error .typeError)
    ([], pid0)

/-- Identity fallback of lines 86-101: keep a truthy id; otherwise the
first `_<8+ digits>_` group of the file path; otherwise a
`GROUP_<cleaned filename>` id, also synthesizing a product name when
none is set. -/
def resolveIdentity (src : String) (pid : Option String) (name : JVal) :
    String × JVal :=
  if optTruthy pid then (pid.getD "", name)
  else
    match searchProductId src with
    | some digits => (digits, name)
    | none =>
      let clean := stripTimestampSuffix (subWalmartReviews (splitextRoot (basename src)))
      ("GROUP_" ++ clean,
       if pyTruthy name then name
       else .str (pyTitle (replaceChar clean '_' ' ')))

/-- `extract_reviews_from_json` (lines 27-103). -/
def extract_reviews_from_json (data : JVal) (src : String) :
    Except PyErr (List JObj × ProductInfo) := do
  let (pid0, name0, url0) := initMeta data
  let raw ← rawReviews data
  let (reviews, pid1) ← postProcess src raw pid0
  let (pid, name) := resolveIdentity src pid1 name0
  .ok (reviews, ⟨pid, name, url0, basename src⟩)

/-! ### Deduplication and the merge loop (lines 105-217) -/

/-- The normalized dedup key of line 111. -/
def normalizeText (v : JVal) : String := ⟨pyLowerChars (pyStrip (pyStr v).data)⟩

/-- `is_duplicate_review` (lines 105-117), with the `seen_review_texts`
set threaded explicitly.  Note the length guard applies to the raw
`str(review_text)`, before normalization. -/
def is_duplicate_review (seen : List String) (review_text : JVal) :
    Bool × List String :=
  if !pyTruthy review_text || pyStrLen review_text < 10 then (true, seen)
  else if normalizeText review_text ∈ seen then (true, seen)
  else (false, seen ++ [normalizeText review_text])

/-- The candidate text the dedup check sees (`review.get('review_text', '')`,
line 166). -/
def rtext (r : JObj) : JVal := (jget r "review_text").getD (.str "")

/-- The normalized dedup key of a review. -/
def normOf (r : JObj) : String := normalizeText (rtext r)

/-- The sentiment value the filter sees (`review.get('sentiment', '')`,
line 175). -/
def sentOf (r : JObj) : JVal := (jget r "sentiment").getD (.str "")

/-- One tracked product of `product_map`. -/
structure Product where
  product_id : String
  product_name : JVal
  product_url : JVal
  source_files : List String
  reviews : List JObj

/-- The merger's accumulator state (`self.all_reviews`,
`self.seen_review_texts`, `self.product_map`). -/
structure MergeState where
  all_reviews : List JObj
  seen_review_texts : List String
  product_map : List (String × Product)

def initState : MergeState := ⟨[], [], []⟩

/-- An active sentiment filter (`if filter_sentiment:` is a Python
truthiness test, so the empty string means no filter). -/
def filtActive : Option String → Bool
  | none => false
  | some s => !s.data.isEmpty

def filtVal : Option String → String
  | none => ""
  | some s => s

/-- Python `v is None`. -/
def isNull : JVal → Bool
  | .null => true
  | _ => false

/-- Rating sanity check of lines 180-191: coerce, null anything that
fails or exceeds 5, keep the coerced float otherwise. -/
def sanitizeRating (review : JObj) : JObj :=
  match jget review "rating" with
  | none => review
  | some v =>
    if isNull v then review
    else
      match pyFloat? v with
      | none => jset review "rating" .null
      | some q =>
        if PyNum.lt 5 q then jset review "rating" .null
        else jset review "rating" (.num q)

/-- Append an accepted review to the product entry `pid`. -/
def appendReviewTo (m : List (String × Product)) (pid : String) (r : JObj) :
    List (String × Product) :=
  m.map (fun kv =>
    if kv.1 == pid then (kv.1, { kv.2 with reviews := kv.2.reviews ++ [r] })
    else kv)

/-- The body of the per-review loop (lines 165-198): dedup check,
optional sentiment filter, rating sanitization, acceptance. -/
def processReview (filt : Option String) (pid : String) (st : MergeState)
    (review : JObj) : Except PyErr MergeState :=
  match is_duplicate_review st.seen_review_texts (rtext review) with
  | (true, seen) => .ok { st with seen_review_texts := seen }
  | (false, seen) =>
    let st := { st with seen_review_texts := seen }
    do
      let keep ←
        if filtActive filt then do
          let s ← pyLowerE (sentOf review)
          pure (s == sLower (filtVal filt))
        else pure true
      if keep then
        let review := sanitizeRating review
        .ok { st with
              all_reviews := st.all_reviews ++ [review],
              product_map := appendReviewTo st.product_map pid review }
      else .ok st

/-- Register the file's source name on the product entry (line 157). -/
def addSourceFile (m : List (String × Product)) (pid : String) (sf : String) :
    List (String × Product) :=
  m.map (fun kv =>
    if kv.1 == pid then
      (kv.1,
       if sf ∈ kv.2.source_files then kv.2
       else { kv.2 with source_files := kv.2.source_files ++ [sf] })
    else kv)

/-- One iteration of the file loop (lines 129-198).  A file is the
pair of its path and its parse result; `none` models a load failure
already caught inside `load_json_file`. -/
def processFile (filt : Option String) (st : MergeState)
    (file : String × Option JVal) : Except PyErr MergeState :=
  match file.2 with
  | none => .ok st
  | some data =>
    if !pyTruthy data then .ok st
    else do
      let (reviews, pinfo) ← extract_reviews_from_json data file.1
      if reviews.isEmpty then .ok st
      else
        let pid := pinfo.product_id
        let st :=
          if (st.product_map.find? (fun kv => kv.1 == pid)).isSome then st
          else
            { st with product_map := st.product_map ++
                [(pid, ⟨pid, pinfo.product_name, pinfo.product_url, [], []⟩)] }
        let st :=
          { st with product_map := addSourceFile st.product_map pid pinfo.source_file }
        reviews.foldlM (processReview filt pid) st

/-- The file loop of `merge_files`. -/
def mergeState (files : List (String × Option JVal)) (filt : Option String) :
    Except PyErr MergeState :=
  files.foldlM (processFile filt) initState

/-! ### `build_combined_data` (lines 219-277) -/

structure Statistics where
  sentiment_distribution : List (String × Nat)
  average_rating : Option PyNum
  average_confidence : Option PyNum
  average_score : Option PyNum
  verified_purchases : Nat
  verified_percentage : PyNum

structure MergeOutput where
  total_files_merged : Nat
  total_products : Nat
  total_reviews : Nat
  statistics : Statistics
  products : List Product
  filter : Option String

/-- Histogram key of lines 230-232: default and falsy values map to
`unknown`, then `.lower()` (an `AttributeError` on truthy non-strings). -/
def sentimentKey (r : JObj) : Except PyErr String := do
  let s := (jget r "sentiment").getD (.str "unknown")
  let s := if pyTruthy s then s else .str "unknown"
  pyLowerE s

def initHist : List (String × Nat) :=
  [("positive", 0), ("negative", 0), ("neutral", 0), ("unknown", 0)]

/-- `sentiments[s] = sentiments.get(s, 0) + 1`. -/
def bumpKey (h : List (String × Nat)) (k : String) : List (String × Nat) :=
  if (h.find? (fun kv => kv.1 == k)).isSome then
    h.map (fun kv => if kv.1 == k then (k, kv.2 + 1) else kv)
  else h ++ [(k, 1)]

/-- The statistics pass of lines 229-250, in review order. -/
def collectStats (reviews : List JObj) :
    Except PyErr (List (String × Nat) × List JVal × List PyNum × List PyNum × Nat) :=
  reviews.foldlM
    (fun (acc : List (String × Nat) × List JVal × List PyNum × List PyNum × Nat) r => do
      let (h, rts, cfs, scs, ver) := acc
      let k ← sentimentKey r
      let h := bumpKey h k
      let rts :=
        match jget r "rating" with
        | none => rts
        | some .null => rts
        | some v => rts ++ [v]
      let cfs :=
        match jget r "confidence" with
        | none => cfs
        | some .null => cfs
        | some v => match pyFloat? v with | some q => cfs ++ [q] | none => cfs
      let scs :=
        match jget r "score" with
        | none => scs
        | some .null => scs
        | some v => match pyFloat? v with | some q => scs ++ [q] | none => scs
      let ver := if pyTruthy ((jget r "verified_purchase").getD .null) then ver + 1 else ver
      pure (h, rts, cfs, scs, ver))
    (initHist, [], [], [], 0)

/-- Python `sum()` over the collected rating values (a `TypeError` on
non-numeric elements; bools add as 0/1). -/
def pySumNums (l : List JVal) : Except PyErr PyNum :=
  l.foldlM
    (fun a v =>
      match v with
      | .num q => .ok (a.add q)
      | .bool b => .ok (a.add (if b then 1 else 0))
      | _ => .error .typeError)
    (0 : PyNum)

def sumNums (l : List PyNum) : PyNum := l.foldl PyNum.add 0

/-- `round(avg, k) if avg else None`: the guard is a Python truthiness
test, so a zero average also yields `None`. -/
def truthyRound (avg : Option PyNum) (k : Nat) : Option PyNum :=
  match avg with
  | none => none
  | some q => if q.isZero then none else some (q.roundTo k)

/-- `build_combined_data` (lines 219-277), minus the wall-clock
`merged_at` timestamp. -/
def build_combined_data (st : MergeState) (filt : Option String) :
    Except PyErr MergeOutput := do
  let (h, rts, cfs, scs, ver) ← collectStats st.all_reviews
  let avgR : Option PyNum ←
    if rts.isEmpty then pure none
    else do
      let s ← pySumNums rts
      pure (some (s.divNat rts.length))
  let avgC : Option PyNum :=
    if cfs.isEmpty then none else some ((sumNums cfs).divNat cfs.length)
  let avgS : Option PyNum :=
    if scs.isEmpty then none else some ((sumNums scs).divNat scs.length)
  .ok
    { total_files_merged := st.product_map.length,
      total_products := st.product_map.length,
      total_reviews := st.all_reviews.length,
      statistics :=
        { sentiment_distribution := h,
          average_rating := truthyRound avgR 2,
          average_confidence := truthyRound avgC 4,
          average_score := truthyRound avgS 4,
          verified_purchases := ver,
          verified_percentage :=
            if !st.all_reviews.isEmpty then
              ((PyNum.ofInt ver).divNat st.all_reviews.length).mulNat 100 |>.roundTo 2
            else 0 },
      products := st.product_map.map (fun kv => kv.2),
      filter :=
        if filtActive filt then some (sUpper (filtVal filt) ++ "_ONLY") else none }

/-- `merge_files` (lines 119-217): the file loop followed by
`build_combined_data`. -/
def mergeFiles (files : List (String × Option JVal)) (filt : Option String) :
    Except PyErr MergeOutput := do
  let st ← mergeState files filt
  build_combined_data st filt

/-! ### Helper lemmas -/

def mapKeys (m : List (String × Product)) : List String := m.map Prod.fst

/-! ### Dictionary lemmas -/

theorem jget_overwrite (fs : JObj) (k : String) (v : JVal) :
    jget (fs.map (fun kv => if kv.1 == k then (k, v) else kv)) k
      = if (fs.find? (fun kv => kv.1 == k)).isSome then some v else none := by
  induction fs with
  | nil => simp [jget]
  | cons kv t ih =>
    by_cases hk : kv.1 == k
    · simp [jget, List.find?, hk]
    · simp only [List.map_cons, if_neg hk, jget, List.find?] at ih ⊢
      simp only [hk]
      simpa [jget] using ih

theorem jget_jset_self (fs : JObj) (k : String) (v : JVal) :
    jget (jset fs k v) k = some v := by
  unfold jset
  split
  · rename_i h
    rw [jget_overwrite, if_pos h]
  · rename_i h
    induction fs with
    | nil => simp [jget]
    | cons kv t ih =>
      by_cases hk : kv.1 == k
      · exact absurd (by simp [List.find?, hk]) h
      · simp only [List.find?_cons, hk, cond_false] at h
        simp only [List.cons_append, jget, List.find?, hk]
        simpa [jget] using ih h

theorem jget_overwrite_ne (fs : JObj) (k k' : String) (v : JVal) (hne : k' ≠ k) :
    jget (fs.map (fun kv => if kv.1 == k then (k, v) else kv)) k' = jget fs k' := by
  rw [jget, List.find?_map]
  have hpred :
      ((fun kv : String × JVal => kv.1 == k') ∘ fun kv => if kv.1 == k then (k, v) else kv)
        = fun kv : String × JVal => kv.1 == k' := by
    funext kv
    simp only [Function.comp_apply]
    by_cases hk : (kv.1 == k) = true
    · rw [if_pos hk]
      have h1 : kv.1 = k := by simpa using hk
      rw [h1]
    · rw [if_neg hk]
  rw [hpred]
  cases hf : fs.find? (fun kv => kv.1 == k') with
  | none => simp [jget, hf]
  | some kv₀ =>
    have hp := List.find?_some hf
    have h1 : kv₀.1 = k' := by simpa using hp
    have h2 : (kv₀.1 == k) = false := by
      rw [h1]; simpa using hne
    simp [jget, hf, h2]
    rw [if_neg (by rw [h1]; exact hne)]

theorem jget_jset_ne (fs : JObj) (k k' : String) (v : JVal) (hne : k' ≠ k) :
    jget (jset fs k v) k' = jget fs k' := by
  unfold jset
  split
  · exact jget_overwrite_ne fs k k' v hne
  · rw [jget, List.find?_append]
    have h0 : List.find? (fun kv => kv.1 == k') [(k, v)] = none := by
      have : (k == k') = false := by simpa using fun h => hne h.symm
      simp [List.find?, this]
    rw [h0, Option.or_none]
    rfl

/-- `sanitizeRating` never touches any key but `rating`. -/
theorem jget_sanitizeRating_ne (r : JObj) (k : String) (h : k ≠ "rating") :
    jget (sanitizeRating r) k = jget r k := by
  unfold sanitizeRating
  split
  · rfl
  · split
    · rfl
    · split
      · exact jget_jset_ne r "rating" k .null h
      · split
        · exact jget_jset_ne r "rating" k .null h
        · exact jget_jset_ne r "rating" k (.num _) h

theorem rtext_sanitizeRating (r : JObj) : rtext (sanitizeRating r) = rtext r := by
  unfold rtext
  rw [jget_sanitizeRating_ne r "review_text" (by decide)]

theorem sentOf_sanitizeRating (r : JObj) : sentOf (sanitizeRating r) = sentOf r := by
  unfold sentOf
  rw [jget_sanitizeRating_ne r "sentiment" (by decide)]

/-! ### `is_duplicate_review` lemmas -/

theorem is_dup_true_seen {seen : List String} {t : JVal} {s : List String}
    (h : is_duplicate_review seen t = (true, s)) : s = seen := by
  unfold is_duplicate_review at h
  split at h
  · exact ((Prod.mk.injEq ..).mp h).2.symm
  · split at h
    · exact ((Prod.mk.injEq ..).mp h).2.symm
    · exact absurd ((Prod.mk.injEq ..).mp h).1 (by simp)

theorem is_dup_false {seen : List String} {t : JVal} {s : List String}
    (h : is_duplicate_review seen t = (false, s)) :
    s = seen ++ [normalizeText t] ∧ pyTruthy t = true ∧
    10 ≤ pyStrLen t ∧ normalizeText t ∉ seen := by
  unfold is_duplicate_review at h
  split at h
  · exact absurd ((Prod.mk.injEq ..).mp h).1 (by simp)
  · rename_i hcond
    have hcond' : (!pyTruthy t || decide (pyStrLen t < 10)) = false := by
      simpa using hcond
    rw [Bool.or_eq_false_iff] at hcond'
    obtain ⟨h1, h2⟩ := hcond'
    split at h
    · exact absurd ((Prod.mk.injEq ..).mp h).1 (by simp)
    · rename_i hmem
      refine ⟨((Prod.mk.injEq ..).mp h).2.symm, by simpa using h1, ?_, hmem⟩
      have := of_decide_eq_false h2
      omega

/-- A candidate is surely dropped as a duplicate when its text is falsy
or short, or its normalized text has been recorded. -/
def RejectedBy (seen : List String) (r : JObj) : Prop :=
  pyTruthy (rtext r) = false ∨ pyStrLen (rtext r) < 10 ∨ normOf r ∈ seen

theorem is_dup_of_rejected {seen : List String} {r : JObj}
    (h : RejectedBy seen r) :
    is_duplicate_review seen (rtext r) = (true, seen) := by
  unfold is_duplicate_review
  rcases h with h | h | h
  · rw [if_pos (by simp [h])]
  · rw [if_pos (by simp [h])]
  · by_cases h1 : (!pyTruthy (rtext r) || decide (pyStrLen (rtext r) < 10)) = true
    · rw [if_pos h1]
    · rw [if_neg h1, if_pos (show normalizeText (rtext r) ∈ seen from h)]

/-! ### Case analysis of one `processReview` step -/

/-- What acceptance under the (possibly inactive) sentiment filter
means for the accepted review. -/
def KeepSent (filt : Option String) (r : JObj) : Prop :=
  filtActive filt = false ∨ pyLowerE (sentOf r) = .ok (sLower (filtVal filt))

/-- The state after accepting review `r` into product `pid`. -/
def acceptState (st : MergeState) (pid : String) (r : JObj) : MergeState :=
  { all_reviews := st.all_reviews ++ [sanitizeRating r],
    seen_review_texts := st.seen_review_texts ++ [normOf r],
    product_map := appendReviewTo st.product_map pid (sanitizeRating r) }

/-- A successful `processReview` step either drops a duplicate (state
unchanged), accepts the review, or filters it out (only the seen set
grows). -/
theorem processReview_spec (filt : Option String) (pid : String)
    (st : MergeState) (r : JObj) (st' : MergeState)
    (h : processReview filt pid st r = .ok st') :
    (RejectedBy st.seen_review_texts r ∧ st' = st) ∨
    (pyTruthy (rtext r) = true ∧ 10 ≤ pyStrLen (rtext r)
      ∧ normOf r ∉ st.seen_review_texts ∧ KeepSent filt r
      ∧ st' = acceptState st pid r) ∨
    (pyTruthy (rtext r) = true ∧ 10 ≤ pyStrLen (rtext r)
      ∧ normOf r ∉ st.seen_review_texts ∧ filtActive filt = true
      ∧ st' = { st with seen_review_texts := st.seen_review_texts ++ [normOf r] }) := by
  unfold processReview at h
  rcases hd : is_duplicate_review st.seen_review_texts (rtext r) with ⟨b, s⟩
  rw [hd] at h
  cases b with
  | true =>
    left
    have hs : s = st.seen_review_texts := is_dup_true_seen hd
    subst hs
    have hst : st' = st := by
      have := ((Except.ok.injEq ..).mp h)
      rw [← this]
    refine ⟨?_, hst⟩
    · -- the dup branch was taken, so one of the rejection reasons held
      unfold is_duplicate_review at hd
      split at hd
      · rename_i hc
        rcases Bool.or_eq_true_iff.mp hc with hc | hc
        · exact Or.inl (by simpa using hc)
        · exact Or.inr (Or.inl (by simpa using hc))
      · split at hd
        · rename_i hmem
          exact Or.inr (Or.inr hmem)
        · exact absurd ((Prod.mk.injEq ..).mp hd).1 (by simp)
  | false =>
    obtain ⟨hs, htr, hlen, hmem⟩ := is_dup_false hd
    subst hs
    dsimp only at h
    by_cases hact : filtActive filt = true
    · rw [if_pos hact] at h
      cases hlow : pyLowerE (sentOf r) with
      | error e =>
        rw [hlow] at h
        simp [Bind.bind, Except.bind] at h
      | ok sv =>
        rw [hlow] at h
        simp only [Bind.bind, Except.bind, Pure.pure, Except.pure] at h
        by_cases hb : (sv == sLower (filtVal filt)) = true
        · rw [if_pos hb] at h
          right; left
          refine ⟨htr, hlen, hmem, Or.inr ?_, ?_⟩
          · rw [hlow]
            have : sv = sLower (filtVal filt) := by simpa using hb
            rw [this]
          · have := (Except.ok.injEq ..).mp h
            rw [← this]; rfl
        · rw [if_neg hb] at h
          right; right
          refine ⟨htr, hlen, hmem, hact, ?_⟩
          have := (Except.ok.injEq ..).mp h
          rw [← this]
          rfl
    · rw [if_neg hact] at h
      simp only [Bind.bind, Except.bind, Pure.pure, Except.pure] at h
      rw [if_pos trivial] at h
      right; left
      refine ⟨htr, hlen, hmem, Or.inl (by simpa using hact), ?_⟩
      have := (Except.ok.injEq ..).mp h
      rw [← this]; rfl

/-! ### Product-map lemmas -/

theorem mem_mapKeys {m : List (String × Product)} {pid : String} :
    pid ∈ mapKeys m ↔ ∃ kv ∈ m, kv.1 = pid := by
  unfold mapKeys
  constructor
  · intro h
    rcases List.mem_map.mp h with ⟨kv, hmem, hk⟩
    exact ⟨kv, hmem, hk⟩
  · rintro ⟨kv, hmem, hk⟩
    exact List.mem_map.mpr ⟨kv, hmem, hk⟩

theorem find?_key_isSome_iff {m : List (String × Product)} {pid : String} :
    (m.find? (fun kv => kv.1 == pid)).isSome = true ↔ pid ∈ mapKeys m := by
  rw [List.find?_isSome, mem_mapKeys]
  constructor
  · rintro ⟨kv, hmem, hp⟩
    exact ⟨kv, hmem, by simpa using hp⟩
  · rintro ⟨kv, hmem, hp⟩
    exact ⟨kv, hmem, by simpa using hp⟩

theorem mapKeys_appendReviewTo (m : List (String × Product)) (pid : String) (r : JObj) :
    mapKeys (appendReviewTo m pid r) = mapKeys m := by
  induction m with
  | nil => rfl
  | cons kv t ih =>
    unfold appendReviewTo mapKeys at ih ⊢
    simp only [List.map_cons]
    have hhead : (if (kv.1 == pid) = true then
        (kv.1, { kv.2 with reviews := kv.2.reviews ++ [r] }) else kv).1 = kv.1 := by
      by_cases hk : (kv.1 == pid) = true
      · rw [if_pos hk]
      · rw [if_neg hk]
    rw [hhead, ih]

theorem appendReviewTo_entry {m : List (String × Product)} {pid : String} {r : JObj}
    {kv' : String × Product} (h : kv' ∈ appendReviewTo m pid r) :
    ∃ kv ∈ m, kv'.1 = kv.1 ∧ kv'.2.product_id = kv.2.product_id ∧
      kv'.2.source_files = kv.2.source_files := by
  unfold appendReviewTo at h
  rcases List.mem_map.mp h with ⟨kv, hmem, rfl⟩
  by_cases hk : (kv.1 == pid) = true
  · rw [if_pos hk]
    exact ⟨kv, hmem, rfl, rfl, rfl⟩
  · rw [if_neg hk]
    exact ⟨kv, hmem, rfl, rfl, rfl⟩

theorem appendReviewTo_not_mem {m : List (String × Product)} {pid : String} (r : JObj)
    (h : pid ∉ mapKeys m) : appendReviewTo m pid r = m := by
  induction m with
  | nil => rfl
  | cons kv t ih =>
    have h1 : kv.1 ≠ pid := by
      intro hx
      exact h (show pid ∈ kv.1 :: mapKeys t from hx ▸ List.mem_cons_self _ _)
    have h2 : pid ∉ mapKeys t := by
      intro hx
      exact h (show pid ∈ kv.1 :: mapKeys t from List.mem_cons_of_mem _ hx)
    unfold appendReviewTo at ih ⊢
    rw [List.map_cons, if_neg (by simpa using h1), ih h2]

theorem perm_snoc_middle {α : Type} (l₁ l₂ : List α) (a : α) :
    (l₁ ++ a :: l₂).Perm ((l₁ ++ l₂) ++ [a]) := by
  have h1 : (l₁ ++ a :: l₂) = l₁ ++ ([a] ++ l₂) := rfl
  rw [h1]
  exact (List.Perm.append_left l₁ List.perm_append_comm).trans (by rw [List.append_assoc])

theorem flatten_appendReviewTo {m : List (String × Product)} {pid : String} (r : JObj)
    (hnd : (mapKeys m).Nodup) (hmem : pid ∈ mapKeys m) :
    ((appendReviewTo m pid r).map (fun kv => kv.2.reviews)).flatten.Perm
      (((m.map (fun kv => kv.2.reviews)).flatten) ++ [r]) := by
  induction m with
  | nil => exact absurd hmem (by simp [mapKeys])
  | cons kv t ih =>
    replace hnd : (kv.1 :: mapKeys t).Nodup := hnd
    replace hmem : pid ∈ kv.1 :: mapKeys t := hmem
    by_cases hk : (kv.1 == pid) = true
    · have hpid : kv.1 = pid := by simpa using hk
      have hnotin : pid ∉ mapKeys t := hpid ▸ (List.nodup_cons.mp hnd).1
      unfold appendReviewTo
      rw [List.map_cons, if_pos hk]
      have ht : List.map (fun kv => if (kv.1 == pid) = true then
          (kv.1, { kv.2 with reviews := kv.2.reviews ++ [r] }) else kv) t = t := by
        have h0 := appendReviewTo_not_mem (m := t) r hnotin
        unfold appendReviewTo at h0
        exact h0
      rw [ht]
      simp only [List.map_cons, List.flatten_cons]
      rw [List.append_assoc, List.append_assoc]
      exact List.Perm.append_left kv.2.reviews List.perm_append_comm
    · have hne : kv.1 ≠ pid := by simpa using hk
      have hmem' : pid ∈ mapKeys t := by
        rcases List.mem_cons.mp hmem with h | h
        · exact absurd h.symm hne
        · exact h
      have hnd' := (List.nodup_cons.mp hnd).2
      unfold appendReviewTo
      rw [List.map_cons, if_neg hk]
      simp only [List.map_cons, List.flatten_cons]
      have ihh := ih hnd' hmem'
      unfold appendReviewTo at ihh
      rw [List.append_assoc]
      exact List.Perm.append_left kv.2.reviews ihh

theorem mapKeys_addSourceFile (m : List (String × Product)) (pid : String) (sf : String) :
    mapKeys (addSourceFile m pid sf) = mapKeys m := by
  induction m with
  | nil => rfl
  | cons kv t ih =>
    unfold addSourceFile mapKeys at ih ⊢
    simp only [List.map_cons]
    have hhead : (if (kv.1 == pid) = true then
        (kv.1, if sf ∈ kv.2.source_files then kv.2
               else { kv.2 with source_files := kv.2.source_files ++ [sf] })
        else kv).1 = kv.1 := by
      by_cases hk : (kv.1 == pid) = true
      · rw [if_pos hk]
      · rw [if_neg hk]
    rw [hhead, ih]

theorem addSourceFile_entry {m : List (String × Product)} {pid sf : String}
    {kv' : String × Product} (h : kv' ∈ addSourceFile m pid sf) :
    ∃ kv ∈ m, kv'.1 = kv.1 ∧ kv'.2.product_id = kv.2.product_id ∧
      kv'.2.reviews = kv.2.reviews := by
  unfold addSourceFile at h
  rcases List.mem_map.mp h with ⟨kv, hmem, rfl⟩
  by_cases hk : (kv.1 == pid) = true
  · rw [if_pos hk]
    by_cases hs : sf ∈ kv.2.source_files
    · rw [if_pos hs]
      exact ⟨kv, hmem, rfl, rfl, rfl⟩
    · rw [if_neg hs]
      exact ⟨kv, hmem, rfl, rfl, rfl⟩
  · rw [if_neg hk]
    exact ⟨kv, hmem, rfl, rfl, rfl⟩

theorem reviews_map_addSourceFile (m : List (String × Product)) (pid sf : String) :
    (addSourceFile m pid sf).map (fun kv => kv.2.reviews)
      = m.map (fun kv => kv.2.reviews) := by
  induction m with
  | nil => rfl
  | cons kv t ih =>
    unfold addSourceFile at ih ⊢
    simp only [List.map_cons]
    have hhead : (if (kv.1 == pid) = true then
        (kv.1, if sf ∈ kv.2.source_files then kv.2
               else { kv.2 with source_files := kv.2.source_files ++ [sf] })
        else kv).2.reviews = kv.2.reviews := by
      by_cases hk : (kv.1 == pid) = true
      · rw [if_pos hk]
        by_cases hs : sf ∈ kv.2.source_files
        · rw [if_pos hs]
        · rw [if_neg hs]
      · rw [if_neg hk]
    rw [hhead, ih]

/-! ### The run invariant -/

/-- The invariant every reachable merge state satisfies: accepted
reviews have recorded, pairwise-distinct normalized texts and raw text
length at least 10; under an active filter their sentiment matches;
product keys are non-empty, distinct, and consistent; and the accepted
reviews are exactly the products' reviews (up to order). -/
structure Inv (filt : Option String) (st : MergeState) : Prop where
  seen_mem : ∀ r ∈ st.all_reviews, normOf r ∈ st.seen_review_texts
  distinct : st.all_reviews.Pairwise (fun a b => normOf a ≠ normOf b)
  text_ok : ∀ r ∈ st.all_reviews, pyTruthy (rtext r) = true ∧ 10 ≤ pyStrLen (rtext r)
  sent_ok : filtActive filt = true →
    ∀ r ∈ st.all_reviews, pyLowerE (sentOf r) = .ok (sLower (filtVal filt))
  keys_eq : ∀ kv ∈ st.product_map, kv.2.product_id = kv.1
  keys_nodup : (mapKeys st.product_map).Nodup
  keys_ne : ∀ kv ∈ st.product_map, kv.1 ≠ ""
  attributed : st.all_reviews.Perm ((st.product_map.map (fun kv => kv.2.reviews)).flatten)

theorem normOf_sanitizeRating (r : JObj) : normOf (sanitizeRating r) = normOf r := by
  unfold normOf
  rw [rtext_sanitizeRating]

theorem processReview_inv {filt : Option String} {pid : String}
    {st : MergeState} {r : JObj} {st' : MergeState}
    (hinv : Inv filt st) (hpid : pid ∈ mapKeys st.product_map)
    (h : processReview filt pid st r = .ok st') : Inv filt st' := by
  rcases processReview_spec filt pid st r st' h with
    ⟨_, rfl⟩ | ⟨htr, hlen, hmem, hks, rfl⟩ | ⟨htr, hlen, hmem, _, rfl⟩
  · exact hinv
  · dsimp only [acceptState]
    refine ⟨?_, ?_, ?_, ?_, ?_, ?_, ?_, ?_⟩
    · intro x hx
      rcases List.mem_append.mp hx with hx | hx
      · exact List.mem_append.mpr (Or.inl (hinv.seen_mem x hx))
      · have hxe : x = sanitizeRating r := by simpa using hx
        subst hxe
        rw [normOf_sanitizeRating]
        exact List.mem_append.mpr (Or.inr (by simp))
    · rw [List.pairwise_append]
      refine ⟨hinv.distinct, List.pairwise_singleton .., ?_⟩
      intro a ha b hb
      have hbe : b = sanitizeRating r := by simpa using hb
      subst hbe
      rw [normOf_sanitizeRating]
      intro hcon
      exact hmem (hcon ▸ hinv.seen_mem a ha)
    · intro x hx
      rcases List.mem_append.mp hx with hx | hx
      · exact hinv.text_ok x hx
      · have hxe : x = sanitizeRating r := by simpa using hx
        subst hxe
        rw [rtext_sanitizeRating]
        exact ⟨htr, hlen⟩
    · intro hact x hx
      rcases List.mem_append.mp hx with hx | hx
      · exact hinv.sent_ok hact x hx
      · have hxe : x = sanitizeRating r := by simpa using hx
        subst hxe
        rw [sentOf_sanitizeRating]
        rcases hks with hks | hks
        · exact absurd hact (by rw [hks]; simp)
        · exact hks
    · intro kv hkv
      rcases appendReviewTo_entry hkv with ⟨kv0, hmem0, h1, h2, _⟩
      rw [h1, h2]
      exact hinv.keys_eq kv0 hmem0
    · rw [mapKeys_appendReviewTo]
      exact hinv.keys_nodup
    · intro kv hkv
      rcases appendReviewTo_entry hkv with ⟨kv0, hmem0, h1, _, _⟩
      rw [h1]
      exact hinv.keys_ne kv0 hmem0
    · refine (List.Perm.append hinv.attributed (List.Perm.refl _)).trans ?_
      exact (flatten_appendReviewTo (sanitizeRating r) hinv.keys_nodup hpid).symm
  · refine ⟨?_, hinv.distinct, hinv.text_ok, ?_, hinv.keys_eq, hinv.keys_nodup,
      hinv.keys_ne, hinv.attributed⟩
    · intro x hx
      exact List.mem_append.mpr (Or.inl (hinv.seen_mem x hx))
    · intro hact x hx
      exact hinv.sent_ok hact x hx

theorem mapKeys_processReview {filt : Option String} {pid : String}
    {st : MergeState} {r : JObj} {st' : MergeState}
    (h : processReview filt pid st r = .ok st') :
    mapKeys st'.product_map = mapKeys st.product_map := by
  rcases processReview_spec filt pid st r st' h with
    ⟨_, rfl⟩ | ⟨_, _, _, _, rfl⟩ | ⟨_, _, _, _, rfl⟩
  · rfl
  · exact mapKeys_appendReviewTo ..
  · rfl

theorem foldl_processReview_inv {filt : Option String} {pid : String}
    (reviews : List JObj) {st st' : MergeState}
    (hinv : Inv filt st) (hpid : pid ∈ mapKeys st.product_map)
    (h : reviews.foldlM (processReview filt pid) st = .ok st') : Inv filt st' := by
  induction reviews generalizing st with
  | nil =>
    cases h
    exact hinv
  | cons r t ih =>
    rw [List.foldlM_cons] at h
    cases hr : processReview filt pid st r with
    | error e =>
      rw [hr] at h
      simp [Bind.bind, Except.bind] at h
    | ok stm =>
      rw [hr] at h
      simp only [Bind.bind, Except.bind] at h
      exact ih (processReview_inv hinv hpid hr)
        ((mapKeys_processReview hr) ▸ hpid) h

/-! ### Identity-resolution lemmas -/

theorem searchIdAux_ne_empty {l : List Char} {s : String}
    (h : searchIdAux l = some s) : s ≠ "" := by
  induction l with
  | nil => simp [searchIdAux] at h
  | cons c rest ih =>
    unfold searchIdAux at h
    by_cases hc : (c == '_') = true
    · rw [if_pos hc] at h
      dsimp only at h
      by_cases hcond : (8 ≤ (rest.takeWhile Char.isDigit).length &&
          ((rest.drop (rest.takeWhile Char.isDigit).length).headD 'x' == '_')) = true
      · rw [if_pos hcond] at h
        have hs : s = ⟨rest.takeWhile Char.isDigit⟩ :=
          ((Option.some.injEq ..).mp h).symm
        subst hs
        intro he
        have hnil : rest.takeWhile Char.isDigit = ([] : List Char) := congrArg String.data he
        have h8 := ((Bool.and_eq_true ..).mp hcond).1
        rw [hnil] at h8
        simp at h8
      · rw [if_neg hcond] at h
        exact ih h
    · rw [if_neg hc] at h
      exact ih h

theorem resolveIdentity_fst_ne (src : String) (pid : Option String) (name : JVal) :
    (resolveIdentity src pid name).1 ≠ "" := by
  unfold resolveIdentity
  by_cases hp : optTruthy pid = true
  · rw [if_pos hp]
    cases pid with
    | none => simp [optTruthy] at hp
    | some s =>
      intro he
      have hs : s = "" := by simpa [Option.getD] using he
      rw [optTruthy, hs] at hp
      simp at hp
  · rw [if_neg hp]
    cases hs : searchProductId src with
    | some digits =>
      dsimp only
      exact searchIdAux_ne_empty hs
    | none =>
      dsimp only
      intro he
      have hd : "GROUP_".data ++ (stripTimestampSuffix
          (subWalmartReviews (splitextRoot (basename src)))).data = [] := by
        have h0 := congrArg String.data he
        rw [String.data_append] at h0
        exact h0
      exact absurd (List.append_eq_nil.mp hd).1 (by decide)

theorem extract_ok_pid_ne {data : JVal} {src : String} {reviews : List JObj}
    {pinfo : ProductInfo}
    (h : extract_reviews_from_json data src = .ok (reviews, pinfo)) :
    pinfo.product_id ≠ "" := by
  unfold extract_reviews_from_json at h
  rcases hm : initMeta data with ⟨pid0, name0, url0⟩
  rw [hm] at h
  dsimp only at h
  cases hraw : rawReviews data with
  | error e =>
    rw [hraw] at h
    simp [Bind.bind, Except.bind] at h
  | ok raw =>
    rw [hraw] at h
    simp only [Bind.bind, Except.bind] at h
    cases hpp : postProcess src raw pid0 with
    | error e =>
      rw [hpp] at h
      simp at h
    | ok pr =>
      rw [hpp] at h
      rcases pr with ⟨rvs, pid1⟩
      dsimp only at h
      have hpi := congrArg Prod.snd ((Except.ok.injEq ..).mp h)
      have h0 : ProductInfo.mk (resolveIdentity src pid1 name0).1
          (resolveIdentity src pid1 name0).2 url0 (basename src) = pinfo := hpi
      rw [← h0]
      exact resolveIdentity_fst_ne src pid1 name0

/-! ### Invariant preservation through one file -/

theorem inv_insert_product {filt : Option String} {st : MergeState} (hinv : Inv filt st)
    {pid : String} (hne : pid ≠ "") (hnotin : pid ∉ mapKeys st.product_map)
    (pname purl : JVal) :
    Inv filt { st with product_map :=
      st.product_map ++ [(pid, ⟨pid, pname, purl, [], []⟩)] } := by
  refine ⟨hinv.seen_mem, hinv.distinct, hinv.text_ok, hinv.sent_ok, ?_, ?_, ?_, ?_⟩
  · intro kv hkv
    rcases List.mem_append.mp hkv with hkv | hkv
    · exact hinv.keys_eq kv hkv
    · have hk : kv = (pid, ⟨pid, pname, purl, [], []⟩) := by simpa using hkv
      rw [hk]
  · unfold mapKeys
    rw [List.map_append]
    rw [List.nodup_append]
    refine ⟨hinv.keys_nodup, List.nodup_singleton _, ?_⟩
    intro a ha hb
    have hae : a = pid := by simpa using hb
    exact hnotin (hae ▸ ha)
  · intro kv hkv
    rcases List.mem_append.mp hkv with hkv | hkv
    · exact hinv.keys_ne kv hkv
    · have hk : kv = (pid, ⟨pid, pname, purl, [], []⟩) := by simpa using hkv
      rw [hk]
      exact hne
  · rw [List.map_append]
    simp only [List.map_cons, List.map_nil, List.flatten_append]
    simpa using hinv.attributed

theorem inv_addSourceFile {filt : Option String} {st : MergeState} (hinv : Inv filt st)
    (pid sf : String) :
    Inv filt { st with product_map := addSourceFile st.product_map pid sf } := by
  refine ⟨hinv.seen_mem, hinv.distinct, hinv.text_ok, hinv.sent_ok, ?_, ?_, ?_, ?_⟩
  · intro kv hkv
    rcases addSourceFile_entry hkv with ⟨kv0, hmem0, h1, h2, _⟩
    rw [h1, h2]
    exact hinv.keys_eq kv0 hmem0
  · show (mapKeys (addSourceFile st.product_map pid sf)).Nodup
    rw [mapKeys_addSourceFile]
    exact hinv.keys_nodup
  · intro kv hkv
    rcases addSourceFile_entry hkv with ⟨kv0, hmem0, h1, _, _⟩
    rw [h1]
    exact hinv.keys_ne kv0 hmem0
  · show List.Perm _ ((List.map _ (addSourceFile st.product_map pid sf)).flatten)
    rw [reviews_map_addSourceFile]
    exact hinv.attributed

theorem processFile_inv {filt : Option String} {st : MergeState}
    {f : String × Option JVal} {st' : MergeState}
    (hinv : Inv filt st) (h : processFile filt st f = .ok st') : Inv filt st' := by
  unfold processFile at h
  rcases f with ⟨path, payload⟩
  cases payload with
  | none =>
    cases h
    exact hinv
  | some data =>
    dsimp only at h
    by_cases ht : (!pyTruthy data) = true
    · rw [if_pos ht] at h
      cases h
      exact hinv
    · rw [if_neg ht] at h
      cases hx : extract_reviews_from_json data path with
      | error e =>
        rw [hx] at h
        simp [Bind.bind, Except.bind] at h
      | ok pr =>
        rw [hx] at h
        simp only [Bind.bind, Except.bind] at h
        rcases pr with ⟨reviews, pinfo⟩
        dsimp only at h
        by_cases he : reviews.isEmpty = true
        · rw [if_pos he] at h
          cases h
          exact hinv
        · rw [if_neg he] at h
          have hne : pinfo.product_id ≠ "" := extract_ok_pid_ne hx
          by_cases hf : (st.product_map.find? (fun kv => kv.1 == pinfo.product_id)).isSome = true
          · rw [if_pos hf] at h
            have hpid : pinfo.product_id ∈ mapKeys st.product_map :=
              find?_key_isSome_iff.mp hf
            refine foldl_processReview_inv reviews
              (inv_addSourceFile hinv pinfo.product_id pinfo.source_file) ?_ h
            show pinfo.product_id ∈ mapKeys (addSourceFile st.product_map pinfo.product_id pinfo.source_file)
            rw [mapKeys_addSourceFile]
            exact hpid
          · rw [if_neg hf] at h
            have hnotin : pinfo.product_id ∉ mapKeys st.product_map := by
              intro hmem
              exact hf (find?_key_isSome_iff.mpr hmem)
            have hinv1 := inv_insert_product hinv hne hnotin
              pinfo.product_name pinfo.product_url
            refine foldl_processReview_inv reviews
              (inv_addSourceFile hinv1 pinfo.product_id pinfo.source_file) ?_ h
            show pinfo.product_id ∈ mapKeys (addSourceFile
              (st.product_map ++ [(pinfo.product_id,
                ⟨pinfo.product_id, pinfo.product_name, pinfo.product_url, [], []⟩)])
              pinfo.product_id pinfo.source_file)
            rw [mapKeys_addSourceFile]
            unfold mapKeys
            rw [List.map_append]
            simp

theorem initState_inv (filt : Option String) : Inv filt initState := by
  refine ⟨?_, ?_, ?_, ?_, ?_, ?_, ?_, ?_⟩ <;> simp [initState, mapKeys]

theorem foldl_processFile_inv {filt : Option String} (files : List (String × Option JVal))
    {st st' : MergeState} (hinv : Inv filt st)
    (h : files.foldlM (processFile filt) st = .ok st') : Inv filt st' := by
  induction files generalizing st with
  | nil =>
    cases h
    exact hinv
  | cons f t ih =>
    rw [List.foldlM_cons] at h
    cases hf : processFile filt st f with
    | error e =>
      rw [hf] at h
      simp [Bind.bind, Except.bind] at h
    | ok stm =>
      rw [hf] at h
      simp only [Bind.bind, Except.bind] at h
      exact ih (processFile_inv hinv hf) h

theorem mergeState_inv {files : List (String × Option JVal)} {filt : Option String}
    {st : MergeState} (h : mergeState files filt = .ok st) : Inv filt st :=
  foldl_processFile_inv files (initState_inv filt) h

/-! ### Monotonicity along a run, and replaying a file -/

/-- A generic helper: mapping a function that fixes every member. -/
theorem map_self {α : Type} (l : List α) (f : α → α) (h : ∀ a ∈ l, f a = a) :
    l.map f = l := by
  induction l with
  | nil => rfl
  | cons a t ih =>
    rw [List.map_cons, h a (List.mem_cons_self ..),
      ih (fun x hx => h x (List.mem_cons_of_mem _ hx))]

/-- The accumulator only grows: recorded texts persist, and every
product entry persists with its source files. -/
structure SLe (st st' : MergeState) : Prop where
  seen_sub : st.seen_review_texts ⊆ st'.seen_review_texts
  keys_sub : ∀ kv ∈ st.product_map, ∃ kv' ∈ st'.product_map,
    kv.1 = kv'.1 ∧ kv.2.source_files ⊆ kv'.2.source_files

theorem SLe.rfl (st : MergeState) : SLe st st :=
  ⟨fun _ h => h, fun kv h => ⟨kv, h, Eq.refl _, fun _ hx => hx⟩⟩

theorem SLe.trans {a b c : MergeState} (h1 : SLe a b) (h2 : SLe b c) : SLe a c := by
  refine ⟨fun x hx => h2.seen_sub (h1.seen_sub hx), ?_⟩
  intro kv hkv
  rcases h1.keys_sub kv hkv with ⟨kv1, h1m, he1, hs1⟩
  rcases h2.keys_sub kv1 h1m with ⟨kv2, h2m, he2, hs2⟩
  exact ⟨kv2, h2m, he1.trans he2, fun x hx => hs2 (hs1 hx)⟩

theorem appendReviewTo_mono (m : List (String × Product)) (pid : String) (r : JObj) :
    ∀ kv ∈ m, ∃ kv' ∈ appendReviewTo m pid r,
      kv.1 = kv'.1 ∧ kv.2.source_files ⊆ kv'.2.source_files := by
  intro kv hkv
  unfold appendReviewTo
  by_cases hk : (kv.1 == pid) = true
  · refine ⟨(kv.1, { kv.2 with reviews := kv.2.reviews ++ [r] }), ?_, Eq.refl _,
      fun x hx => hx⟩
    have hm := List.mem_map_of_mem (f := fun kv => if (kv.1 == pid) = true then
      (kv.1, { kv.2 with reviews := kv.2.reviews ++ [r] }) else kv) hkv
    dsimp only at hm
    rw [if_pos hk] at hm
    exact hm
  · refine ⟨kv, ?_, Eq.refl _, fun x hx => hx⟩
    have hm := List.mem_map_of_mem (f := fun kv => if (kv.1 == pid) = true then
      (kv.1, { kv.2 with reviews := kv.2.reviews ++ [r] }) else kv) hkv
    dsimp only at hm
    rw [if_neg hk] at hm
    exact hm

theorem addSourceFile_mono (m : List (String × Product)) (pid sf : String) :
    ∀ kv ∈ m, ∃ kv' ∈ addSourceFile m pid sf,
      kv.1 = kv'.1 ∧ kv.2.source_files ⊆ kv'.2.source_files := by
  intro kv hkv
  unfold addSourceFile
  have hm := List.mem_map_of_mem (f := fun kv => if (kv.1 == pid) = true then
    (kv.1, if sf ∈ kv.2.source_files then kv.2
     else { kv.2 with source_files := kv.2.source_files ++ [sf] }) else kv) hkv
  dsimp only at hm
  by_cases hk : (kv.1 == pid) = true
  · by_cases hs : sf ∈ kv.2.source_files
    · rw [if_pos hk, if_pos hs] at hm
      exact ⟨(kv.1, kv.2), hm, Eq.refl _, fun x hx => hx⟩
    · rw [if_pos hk, if_neg hs] at hm
      exact ⟨(kv.1, { kv.2 with source_files := kv.2.source_files ++ [sf] }), hm,
        Eq.refl _, fun x hx => List.mem_append.mpr (Or.inl hx)⟩
  · rw [if_neg hk] at hm
    exact ⟨kv, hm, Eq.refl _, fun x hx => hx⟩

theorem addSourceFile_mem_sf {m : List (String × Product)} {pid : String} (sf : String)
    (hmem : pid ∈ mapKeys m) :
    ∃ kv' ∈ addSourceFile m pid sf, kv'.1 = pid ∧ sf ∈ kv'.2.source_files := by
  rcases mem_mapKeys.mp hmem with ⟨kv, hkv, hke⟩
  unfold addSourceFile
  have hk : (kv.1 == pid) = true := by simpa using hke
  have hm := List.mem_map_of_mem (f := fun kv => if (kv.1 == pid) = true then
    (kv.1, if sf ∈ kv.2.source_files then kv.2
     else { kv.2 with source_files := kv.2.source_files ++ [sf] }) else kv) hkv
  dsimp only at hm
  by_cases hs : sf ∈ kv.2.source_files
  · rw [if_pos hk, if_pos hs] at hm
    exact ⟨(kv.1, kv.2), hm, hke, hs⟩
  · rw [if_pos hk, if_neg hs] at hm
    exact ⟨(kv.1, { kv.2 with source_files := kv.2.source_files ++ [sf] }), hm, hke,
      List.mem_append.mpr (Or.inr (by simp))⟩

theorem addSourceFile_id {m : List (String × Product)} {pid sf : String}
    (h : ∀ kv ∈ m, kv.1 = pid → sf ∈ kv.2.source_files) :
    addSourceFile m pid sf = m := by
  unfold addSourceFile
  apply map_self
  intro kv hkv
  by_cases hk : (kv.1 == pid) = true
  · rw [if_pos hk, if_pos (h kv hkv (by simpa using hk))]
  · rw [if_neg hk]

/-- In a list with distinct keys, an entry is determined by its key. -/
theorem key_unique {m : List (String × Product)} (hnd : (mapKeys m).Nodup)
    {kv kv' : String × Product} (h1 : kv ∈ m) (h2 : kv' ∈ m) (he : kv.1 = kv'.1) :
    kv = kv' := by
  induction m with
  | nil => cases h1
  | cons a t ih =>
    replace hnd : (a.1 :: mapKeys t).Nodup := hnd
    rcases List.mem_cons.mp h1 with h1e | h1t
    · rcases List.mem_cons.mp h2 with h2e | h2t
      · rw [h1e, h2e]
      · exfalso
        apply (List.nodup_cons.mp hnd).1
        apply mem_mapKeys.mpr
        exact ⟨kv', h2t, by rw [← he, h1e]⟩
    · rcases List.mem_cons.mp h2 with h2e | h2t
      · exfalso
        apply (List.nodup_cons.mp hnd).1
        apply mem_mapKeys.mpr
        exact ⟨kv, h1t, by rw [he, h2e]⟩
      · exact ih (List.nodup_cons.mp hnd).2 h1t h2t

theorem processReview_sle {filt : Option String} {pid : String}
    {st : MergeState} {r : JObj} {st' : MergeState}
    (h : processReview filt pid st r = .ok st') : SLe st st' := by
  rcases processReview_spec filt pid st r st' h with
    ⟨_, rfl⟩ | ⟨_, _, _, _, rfl⟩ | ⟨_, _, _, _, rfl⟩
  · exact SLe.rfl _
  · dsimp only [acceptState]
    exact ⟨fun x hx => List.mem_append.mpr (Or.inl hx),
      appendReviewTo_mono st.product_map pid (sanitizeRating r)⟩
  · exact ⟨fun x hx => List.mem_append.mpr (Or.inl hx),
      fun kv hkv => ⟨kv, hkv, Eq.refl _, fun x hx => hx⟩⟩

theorem foldl_processReview_sle {filt : Option String} {pid : String}
    (reviews : List JObj) {st st' : MergeState}
    (h : reviews.foldlM (processReview filt pid) st = .ok st') : SLe st st' := by
  induction reviews generalizing st with
  | nil =>
    cases h
    exact SLe.rfl _
  | cons r t ih =>
    rw [List.foldlM_cons] at h
    cases hr : processReview filt pid st r with
    | error e =>
      rw [hr] at h
      simp [Bind.bind, Except.bind] at h
    | ok stm =>
      rw [hr] at h
      simp only [Bind.bind, Except.bind] at h
      exact (processReview_sle hr).trans (ih h)

theorem processFile_sle {filt : Option String} {st : MergeState}
    {f : String × Option JVal} {st' : MergeState}
    (h : processFile filt st f = .ok st') : SLe st st' := by
  unfold processFile at h
  rcases f with ⟨path, payload⟩
  cases payload with
  | none =>
    cases h
    exact SLe.rfl _
  | some data =>
    dsimp only at h
    by_cases ht : (!pyTruthy data) = true
    · rw [if_pos ht] at h
      cases h
      exact SLe.rfl _
    · rw [if_neg ht] at h
      cases hx : extract_reviews_from_json data path with
      | error e =>
        rw [hx] at h
        simp [Bind.bind, Except.bind] at h
      | ok pr =>
        rw [hx] at h
        simp only [Bind.bind, Except.bind] at h
        rcases pr with ⟨reviews, pinfo⟩
        dsimp only at h
        by_cases he : reviews.isEmpty = true
        · rw [if_pos he] at h
          cases h
          exact SLe.rfl _
        · rw [if_neg he] at h
          have hfold := foldl_processReview_sle reviews h
          refine SLe.trans (b := { (if (st.product_map.find? (fun kv => kv.1 == pinfo.product_id)).isSome then st
              else { st with product_map := st.product_map ++ [(pinfo.product_id,
                ⟨pinfo.product_id, pinfo.product_name, pinfo.product_url, [], []⟩)] }) with
              product_map := addSourceFile
                (if (st.product_map.find? (fun kv => kv.1 == pinfo.product_id)).isSome then st
                 else { st with product_map := st.product_map ++ [(pinfo.product_id,
                   ⟨pinfo.product_id, pinfo.product_name, pinfo.product_url, [], []⟩)] }).product_map
                pinfo.product_id pinfo.source_file }) ?_ hfold
          by_cases hf : (st.product_map.find? (fun kv => kv.1 == pinfo.product_id)).isSome = true
          · rw [if_pos hf]
            exact ⟨fun x hx => hx, addSourceFile_mono st.product_map _ _⟩
          · rw [if_neg hf]
            refine ⟨fun x hx => hx, ?_⟩
            intro kv hkv
            have hkv' : kv ∈ st.product_map ++ [(pinfo.product_id,
              ⟨pinfo.product_id, pinfo.product_name, pinfo.product_url, [], []⟩)] :=
              List.mem_append.mpr (Or.inl hkv)
            exact addSourceFile_mono _ pinfo.product_id pinfo.source_file kv hkv'

theorem foldl_processFile_sle {filt : Option String}
    (files : List (String × Option JVal)) {st st' : MergeState}
    (h : files.foldlM (processFile filt) st = .ok st') : SLe st st' := by
  induction files generalizing st with
  | nil =>
    cases h
    exact SLe.rfl _
  | cons f t ih =>
    rw [List.foldlM_cons] at h
    cases hf : processFile filt st f with
    | error e =>
      rw [hf] at h
      simp [Bind.bind, Except.bind] at h
    | ok stm =>
      rw [hf] at h
      simp only [Bind.bind, Except.bind] at h
      exact (processFile_sle hf).trans (ih h)

theorem rejectedBy_mono {seen seen' : List String} {r : JObj}
    (hsub : seen ⊆ seen') (h : RejectedBy seen r) : RejectedBy seen' r := by
  rcases h with h | h | h
  · exact Or.inl h
  · exact Or.inr (Or.inl h)
  · exact Or.inr (Or.inr (hsub h))

theorem foldl_processReview_rejected {filt : Option String} {pid : String}
    (reviews : List JObj) {st st' : MergeState}
    (h : reviews.foldlM (processReview filt pid) st = .ok st') :
    ∀ r ∈ reviews, RejectedBy st'.seen_review_texts r := by
  induction reviews generalizing st with
  | nil =>
    intro r hr
    cases hr
  | cons r0 t ih =>
    rw [List.foldlM_cons] at h
    cases hr0 : processReview filt pid st r0 with
    | error e =>
      rw [hr0] at h
      simp [Bind.bind, Except.bind] at h
    | ok stm =>
      rw [hr0] at h
      simp only [Bind.bind, Except.bind] at h
      intro r hr
      rcases List.mem_cons.mp hr with rfl | hr
      · have hsle : SLe stm st' := foldl_processReview_sle t h
        rcases processReview_spec filt pid st r stm hr0 with
          ⟨hrej, rfl⟩ | ⟨_, _, _, _, rfl⟩ | ⟨_, _, _, _, rfl⟩
        · exact rejectedBy_mono hsle.seen_sub hrej
        · refine Or.inr (Or.inr (hsle.seen_sub ?_))
          exact List.mem_append.mpr (Or.inr (by simp))
        · refine Or.inr (Or.inr (hsle.seen_sub ?_))
          exact List.mem_append.mpr (Or.inr (by simp))
      · exact ih h r hr

theorem processReview_noop {filt : Option String} {pid : String}
    {st : MergeState} {r : JObj} (h : RejectedBy st.seen_review_texts r) :
    processReview filt pid st r = .ok st := by
  unfold processReview
  rw [is_dup_of_rejected h]

theorem foldl_processReview_noop {filt : Option String} {pid : String}
    (reviews : List JObj) {st : MergeState}
    (h : ∀ r ∈ reviews, RejectedBy st.seen_review_texts r) :
    reviews.foldlM (processReview filt pid) st = .ok st := by
  induction reviews with
  | nil => rfl
  | cons r t ih =>
    rw [List.foldlM_cons, processReview_noop (h r (List.mem_cons_self ..))]
    simp only [Bind.bind, Except.bind]
    exact ih (fun x hx => h x (List.mem_cons_of_mem _ hx))

/-- Replaying an already-processed file over any later state of the
same run changes nothing: the product entry and its source file are
already present, and every review is rejected as a duplicate. -/
theorem processFile_replay {filt : Option String} {st₀ : MergeState}
    {f : String × Option JVal} {st₁ st₂ : MergeState}
    (h1 : processFile filt st₀ f = .ok st₁) (hs : SLe st₁ st₂)
    (hinv2 : Inv filt st₂) :
    processFile filt st₂ f = .ok st₂ := by
  rcases f with ⟨path, payload⟩
  cases payload with
  | none => rfl
  | some data =>
    unfold processFile at h1 ⊢
    dsimp only at h1 ⊢
    by_cases ht : (!pyTruthy data) = true
    · rw [if_pos ht]
    · rw [if_neg ht] at h1 ⊢
      cases hx : extract_reviews_from_json data path with
      | error e =>
        rw [hx] at h1
        simp [Bind.bind, Except.bind] at h1
      | ok pr =>
        rw [hx] at h1
        simp only [Bind.bind, Except.bind] at h1 ⊢
        rcases pr with ⟨reviews, pinfo⟩
        dsimp only at h1 ⊢
        by_cases he : reviews.isEmpty = true
        · rw [if_pos he]
        · rw [if_neg he] at h1 ⊢
          have hrej := foldl_processReview_rejected reviews h1
          have hsle1 := foldl_processReview_sle reviews h1
          have hpidA : pinfo.product_id ∈ mapKeys
              (if (st₀.product_map.find? (fun kv => kv.1 == pinfo.product_id)).isSome then st₀
               else { st₀ with product_map := st₀.product_map ++ [(pinfo.product_id,
                 ⟨pinfo.product_id, pinfo.product_name, pinfo.product_url, [], []⟩)] }).product_map := by
            by_cases hf : (st₀.product_map.find? (fun kv => kv.1 == pinfo.product_id)).isSome = true
            · rw [if_pos hf]
              exact find?_key_isSome_iff.mp hf
            · rw [if_neg hf]
              show pinfo.product_id ∈ mapKeys (st₀.product_map ++ _)
              unfold mapKeys
              rw [List.map_append]
              simp
          obtain ⟨kvB, hkvB, hkeyB, hsfB⟩ :=
            addSourceFile_mem_sf pinfo.source_file hpidA
          obtain ⟨kv1, hkv1, hk1, hss1⟩ := hsle1.keys_sub kvB hkvB
          obtain ⟨kv2, hkv2, hk2, hss2⟩ := hs.keys_sub kv1 hkv1
          have hkey2 : kv2.1 = pinfo.product_id := by
            rw [← hk2, ← hk1, hkeyB]
          have hsf2 : pinfo.source_file ∈ kv2.2.source_files :=
            hss2 (hss1 hsfB)
          have hfind2 : (st₂.product_map.find? (fun kv => kv.1 == pinfo.product_id)).isSome = true :=
            find?_key_isSome_iff.mpr (mem_mapKeys.mpr ⟨kv2, hkv2, hkey2⟩)
          rw [if_pos hfind2]
          have hid : addSourceFile st₂.product_map pinfo.product_id pinfo.source_file
              = st₂.product_map := by
            apply addSourceFile_id
            intro kv hkv hke
            have : kv = kv2 := key_unique hinv2.keys_nodup hkv hkv2 (by rw [hke, hkey2])
            rw [this]
            exact hsf2
          rw [hid]
          exact foldl_processReview_noop reviews
            (fun r hr => rejectedBy_mono hs.seen_sub (hrej r hr))

theorem isNull_eq_false {v : JVal} (h : v ≠ .null) : isNull v = false := by
  cases v with
  | null => exact absurd rfl h
  | bool b => rfl
  | num q => rfl
  | str s => rfl
  | arr xs => rfl
  | obj fs => rfl

/-- The rating field of a sanitized review: coercion failures and
values above 5 become null, values at most 5 are kept exactly. -/
theorem sanitizeRating_rating {review : JObj} {v : JVal}
    (hv : jget review "rating" = some v) (hnn : v ≠ .null) :
    jget (sanitizeRating review) "rating"
      = some (match pyFloat? v with
          | none => .null
          | some q => if PyNum.lt 5 q then .null else .num q) := by
  unfold sanitizeRating
  rw [hv]
  dsimp only
  rw [if_neg (by rw [isNull_eq_false hnn]; exact fun hc => Bool.noConfusion hc)]
  cases hq : pyFloat? v with
  | none => exact jget_jset_self review "rating" .null
  | some q =>
    dsimp only
    by_cases hlt : PyNum.lt 5 q = true
    · rw [if_pos hlt, if_pos hlt]
      exact jget_jset_self review "rating" .null
    · rw [if_neg hlt, if_neg hlt]
      exact jget_jset_self review "rating" (.num q)

/-- `foldlM` over a split input list (the file loop decomposes). -/
theorem mergeState_append (files₁ files₂ : List (String × Option JVal))
    (filt : Option String) :
    mergeState (files₁ ++ files₂) filt
      = mergeState files₁ filt >>= fun st => files₂.foldlM (processFile filt) st :=
  List.foldlM_append ..

/-- A file the loop skips without effect: its JSON failed to load, its
payload is falsy, or its (possibly unrecognized) shape yields no
reviews — exactly the `continue` paths of lines 132-140. -/
def Skippable (f : String × Option JVal) : Prop :=
  match f.2 with
  | none => True
  | some d => pyTruthy d = false ∨
      ∃ pinfo, extract_reviews_from_json d f.1 = .ok ([], pinfo)

theorem processFile_skip {filt : Option String} {st : MergeState}
    {f : String × Option JVal} (h : Skippable f) :
    processFile filt st f = .ok st := by
  rcases f with ⟨path, payload⟩
  cases payload with
  | none => rfl
  | some data =>
    unfold processFile
    dsimp only
    rcases h with ht | ⟨pinfo, hx⟩
    · rw [if_pos (by rw [ht]; rfl)]
    · by_cases ht : (!pyTruthy data) = true
      · rw [if_pos ht]
      · rw [if_neg ht, hx]
        simp only [Bind.bind, Except.bind]
        rfl

/-- The output record determines its products and review count from
the final state. -/
theorem build_products {st : MergeState} {filt : Option String} {out : MergeOutput}
    (h : build_combined_data st filt = .ok out) :
    out.products = st.product_map.map (fun kv => kv.2) ∧
    out.total_reviews = st.all_reviews.length := by
  unfold build_combined_data at h
  cases hc : collectStats st.all_reviews with
  | error e =>
    rw [hc] at h
    simp [Bind.bind, Except.bind] at h
  | ok stats =>
    rw [hc] at h
    simp only [Bind.bind, Except.bind] at h
    rcases stats with ⟨hh, rts, cfs, scs, ver⟩
    dsimp only at h
    by_cases hr : rts.isEmpty = true
    · rw [if_pos hr] at h
      simp only [Bind.bind, Except.bind, Pure.pure, Except.pure] at h
      have he := (Except.ok.injEq ..).mp h
      rw [← he]
      exact ⟨rfl, rfl⟩
    · rw [if_neg hr] at h
      cases hsum : pySumNums rts with
      | error e =>
        rw [hsum] at h
        simp [Bind.bind, Except.bind] at h
      | ok sm =>
        rw [hsum] at h
        simp only [Bind.bind, Except.bind, Pure.pure, Except.pure] at h
        have he := (Except.ok.injEq ..).mp h
        rw [← he]
        exact ⟨rfl, rfl⟩

/-! ### Claim C1: global uniqueness of normalized review texts -/

/-- C1: in every merge run, no two reviews accepted into the output
share the same normalized (case-folded, whitespace-trimmed)
`review_text`; the uniqueness is global across the whole run, so once
a text is accepted every later candidate with the same normalized text
is dropped. -/
theorem claim_C1 (files : List (String × Option JVal)) (filt : Option String)
    (st : MergeState) (h : mergeState files filt = .ok st) :
    st.all_reviews.Pairwise (fun a b => normOf a ≠ normOf b) :=
  (mergeState_inv h).distinct

def c1Files : List (String × Option JVal) :=
  [("a.json", some (.obj [("reviews", .arr
     [.obj [("review_text", .str "a really great kitchen mixer")],
      .obj [("review_text", .str "  A REALLY GREAT KITCHEN MIXER ")],
      .obj [("review_text", .str "terrible, broke after one day")]])]))]

def c1State : MergeState :=
  match mergeState c1Files none with
  | .ok st => st
  | .error _ => initState

/-- Witness for C1 at a concrete input containing a case/space variant
duplicate. -/
theorem claim_C1_witness :
    c1State.all_reviews.Pairwise (fun a b => normOf a ≠ normOf b) :=
  claim_C1 c1Files none c1State rfl

/-! ### Claim C2: the length threshold (corrected) -/

def c2Files : List (String × Option JVal) :=
  [("reviews.json", some (.obj [("reviews", .arr
     [.obj [("review_text", .str "   bad!   ")]])]))]

/-- C2 counterexample: a review whose raw text has 10 characters but
whose normalized text has only 4 is accepted, so the output does
contain a review with normalized length below 10. -/
theorem claim_C2_counterexample :
    (mergeState c2Files none).map
      (fun st => st.all_reviews.map (fun r => (normOf r).data.length)) = .ok [4] ∧
    ¬ 10 ≤ 4 := ⟨rfl, by decide⟩

/-- C2 (amended): the ten-character noise threshold is applied to the
raw `str(review_text)` before normalization, so every accepted review
has truthy text of raw length at least 10 — its normalized text may be
shorter. -/
theorem claim_C2 (files : List (String × Option JVal)) (filt : Option String)
    (st : MergeState) (h : mergeState files filt = .ok st) :
    ∀ r ∈ st.all_reviews, pyTruthy (rtext r) = true ∧ 10 ≤ pyStrLen (rtext r) :=
  (mergeState_inv h).text_ok

def c2WitnessState : MergeState :=
  match mergeState c2Files none with
  | .ok st => st
  | .error _ => initState

/-- Witness for the amended C2 at the same concrete input (one review
is accepted, and it satisfies the raw-length bound). -/
theorem claim_C2_witness :
    (∀ r ∈ c2WitnessState.all_reviews,
      pyTruthy (rtext r) = true ∧ 10 ≤ pyStrLen (rtext r)) ∧
    c2WitnessState.all_reviews.length = 1 :=
  ⟨claim_C2 c2Files none c2WitnessState rfl, rfl⟩

/-! ### Claim C3: identity fallback for the kitchen filename (corrected) -/

def c3File : String × Option JVal :=
  ("walmart_reviews_kitchen_20240101_120000.json",
   some (.obj [("reviews", .arr
     [.obj [("review_text", .str "works nicely for pasta dough")]])]))

def c3FileNoTimestamp : String × Option JVal :=
  ("walmart_reviews_kitchen.json",
   some (.obj [("reviews", .arr
     [.obj [("review_text", .str "works nicely for pasta dough")]])]))

/-- C3 counterexample: for the document with no `product_id` anywhere
and filename `walmart_reviews_kitchen_20240101_120000.json`, the date
half of the timestamp matches the `_<8+ digits>_` pattern, so the
output product id is `20240101`, not `GROUP_kitchen`. -/
theorem claim_C3_counterexample :
    (mergeState [c3File] none).map (fun st => mapKeys st.product_map)
      = .ok ["20240101"] ∧
    ("20240101" : String) ≠ "GROUP_kitchen" := ⟨rfl, by decide⟩

/-- C3 (amended): the `_<8+ digits>_` filename pattern fires on the
timestamp's date, so that filename yields product id `20240101` with
no synthesized name; the `GROUP_<cleaned filename>` fallback with
title-cased name `Kitchen` applies only when no such digit group
exists, e.g. for `walmart_reviews_kitchen.json`. -/
theorem claim_C3 :
    (mergeState [c3File] none).map
      (fun st => st.product_map.map (fun kv => (kv.1, kv.2.product_name)))
      = .ok [("20240101", .null)] ∧
    (mergeState [c3FileNoTimestamp] none).map
      (fun st => st.product_map.map (fun kv => (kv.1, kv.2.product_name)))
      = .ok [("GROUP_kitchen", .str "Kitchen")] := ⟨rfl, rfl⟩

/-! ### Claim C4: skip-and-continue (corrected) -/

def c4GoodFile : String × Option JVal :=
  ("good.json", some (.obj [("reviews", .arr
     [.obj [("review_text", .str "a very nice toaster oven")]])]))

def c4BadFile : String × Option JVal :=
  ("bad.json", some (.arr [.str "just a bare string, not a review object"]))

/-- C4 counterexample: after the first file has been processed
successfully, a second file of a recognized shape (a bare JSON list)
whose element is a string raises an uncaught `TypeError`, aborting the
run instead of being skipped. -/
theorem claim_C4_counterexample :
    mergeFiles [c4GoodFile] none ≠ .error .typeError ∧
    mergeFiles [c4GoodFile, c4BadFile] none = .error .typeError := by
  constructor
  · intro hc
    exact Except.noConfusion ((rfl : mergeFiles [c4GoodFile] none
      = mergeFiles [c4GoodFile] none).symm.trans hc)
  · rfl

/-- C4 (amended): the skip-and-continue guarantee holds for files
whose JSON fails to load, whose payload is falsy, or whose shape
yields no reviews: such a file leaves the merge result unchanged and
processing continues; a recognized shape containing a non-dict review
element, however, raises mid-run. -/
theorem claim_C4 (filt : Option String) (pre post : List (String × Option JVal))
    (f : String × Option JVal) (h : Skippable f) :
    mergeFiles (pre ++ f :: post) filt = mergeFiles (pre ++ post) filt := by
  unfold mergeFiles
  suffices hs : mergeState (pre ++ f :: post) filt = mergeState (pre ++ post) filt by
    rw [hs]
  rw [show pre ++ f :: post = pre ++ [f] ++ post by simp, mergeState_append (pre ++ [f]) post,
    mergeState_append pre post, mergeState_append pre [f]]
  cases hp : mergeState pre filt with
  | error e => rfl
  | ok st =>
    simp only [Bind.bind, Except.bind]
    rw [List.foldlM_cons, processFile_skip h]
    simp only [Bind.bind, Except.bind]
    rfl

/-- Witness for C4: a file whose JSON failed to load is skipped and
the rest of the run is unaffected. -/
theorem claim_C4_witness :
    mergeFiles ([c4GoodFile] ++ ("unreadable.json", none) :: []) none
      = mergeFiles ([c4GoodFile] ++ []) none :=
  claim_C4 none [c4GoodFile] [] ("unreadable.json", (none : Option JVal)) trivial

/-! ### Claim C5: idempotence under input repetition -/

/-- C5: merging a list in which the same file appears twice produces
the same result as merging the list with that file once: the second
copy's reviews are all rejected as duplicates and no product or
source-file entry is added, so products and review counts agree. -/
theorem claim_C5 (pre mid post : List (String × Option JVal))
    (f : String × Option JVal) (filt : Option String) :
    mergeFiles (pre ++ f :: (mid ++ f :: post)) filt
      = mergeFiles (pre ++ f :: (mid ++ post)) filt := by
  unfold mergeFiles
  suffices hs : mergeState (pre ++ f :: (mid ++ f :: post)) filt
      = mergeState (pre ++ f :: (mid ++ post)) filt by
    rw [hs]
  rw [show pre ++ f :: (mid ++ f :: post) = (pre ++ f :: mid) ++ f :: post by simp,
    show pre ++ f :: (mid ++ post) = (pre ++ f :: mid) ++ post by simp,
    mergeState_append (pre ++ f :: mid) (f :: post),
    mergeState_append (pre ++ f :: mid) post]
  cases hm : mergeState (pre ++ f :: mid) filt with
  | error e => rfl
  | ok st2 =>
    simp only [Bind.bind, Except.bind]
    rw [List.foldlM_cons]
    have hinv2 : Inv filt st2 := mergeState_inv hm
    rw [mergeState_append pre (f :: mid)] at hm
    cases hp : mergeState pre filt with
    | error e =>
      rw [hp] at hm
      simp [Bind.bind, Except.bind] at hm
    | ok st0 =>
      rw [hp] at hm
      simp only [Bind.bind, Except.bind] at hm
      rw [List.foldlM_cons] at hm
      cases hf : processFile filt st0 f with
      | error e =>
        rw [hf] at hm
        simp [Bind.bind, Except.bind] at hm
      | ok st1 =>
        rw [hf] at hm
        simp only [Bind.bind, Except.bind] at hm
        have hsle : SLe st1 st2 := foldl_processFile_sle mid hm
        rw [processFile_replay hf hsle hinv2]
        simp only [Bind.bind, Except.bind]

/-! ### Claim C6: the sentiment filter -/

/-- C6: when a (truthy) sentiment filter `S` is supplied, every
accepted review has a string sentiment that equals `S` up to case:
lowercasing it yields exactly the lowercased filter. -/
theorem claim_C6 (files : List (String × Option JVal)) (S : String)
    (hS : S ≠ "") (st : MergeState) (h : mergeState files (some S) = .ok st) :
    ∀ r ∈ st.all_reviews, pyLowerE (sentOf r) = .ok (sLower S) := by
  have hd : S.data ≠ [] := by
    intro hnil
    apply hS
    cases S with
    | mk l =>
      cases hnil
      rfl
  have hact : filtActive (some S) = true := by
    show (!S.data.isEmpty) = true
    cases hl : S.data with
    | nil => exact absurd hl hd
    | cons a t => rfl
  exact (mergeState_inv h).sent_ok hact

def c6Files : List (String × Option JVal) :=
  [("a.json", some (.obj [("reviews", .arr
     [.obj [("review_text", .str "absolutely loved this blender"),
            ("sentiment", .str "Positive")],
      .obj [("review_text", .str "terrible, broke after one day"),
            ("sentiment", .str "negative")]])]))]

def c6State : MergeState :=
  match mergeState c6Files (some "positive") with
  | .ok st => st
  | .error _ => initState

/-- Witness for C6: filtering for `positive` keeps only the review
whose sentiment case-insensitively equals it. -/
theorem claim_C6_witness :
    (∀ r ∈ c6State.all_reviews, pyLowerE (sentOf r) = .ok (sLower "positive")) ∧
    c6State.all_reviews.length = 1 :=
  ⟨claim_C6 c6Files "positive" (by decide) c6State rfl, rfl⟩

/-! ### Claim C7: rating sanitization -/

/-- C7: a review accepted by one `processReview` step is stored with
its rating replaced by the sanitized value: null when numeric coercion
fails or when the coerced value exceeds 5 (1060 is nulled, never
clamped and never kept), and the exact coerced float when it is at
most 5. -/
theorem claim_C7 (filt : Option String) (pid : String) (st : MergeState)
    (review : JObj) (st' : MergeState) (v : JVal)
    (h : processReview filt pid st review = .ok st')
    (hv : jget review "rating" = some v) (hnn : v ≠ .null) :
    ∀ r ∈ st'.all_reviews, r ∈ st.all_reviews ∨
      jget r "rating" = some (match pyFloat? v with
        | none => .null
        | some q => if PyNum.lt 5 q then .null else .num q) := by
  rcases processReview_spec filt pid st review st' h with
    ⟨_, rfl⟩ | ⟨_, _, _, _, rfl⟩ | ⟨_, _, _, _, rfl⟩
  · exact fun r hr => Or.inl hr
  · intro r hr
    rcases List.mem_append.mp hr with hr | hr
    · exact Or.inl hr
    · right
      have hre : r = sanitizeRating review := by simpa using hr
      rw [hre]
      exact sanitizeRating_rating hv hnn
  · exact fun r hr => Or.inl hr

def c7Review : JObj :=
  [("review_text", .str "the scraper grabbed the review count"),
   ("rating", .num (.ofInt 1060))]

def c7State : MergeState :=
  ⟨[], [], [("p1", ⟨"p1", .null, .null, ["a.json"], []⟩)]⟩

def c7State' : MergeState :=
  match processReview none "p1" c7State c7Review with
  | .ok st => st
  | .error _ => initState

/-- Witness for C7: an input rating of 1060 is stored as null. -/
theorem claim_C7_witness :
    (∀ r ∈ c7State'.all_reviews, r ∈ c7State.all_reviews ∨
      jget r "rating" = some JVal.null) ∧
    c7State'.all_reviews.length = 1 :=
  ⟨claim_C7 none "p1" c7State c7Review c7State' (.num (.ofInt 1060)) rfl rfl
    (fun hc => JVal.noConfusion hc), rfl⟩

/-! ### Claim C8: the averages (code bug at a zero mean) -/

def c8Files : List (String × Option JVal) :=
  [("r.json", some (.obj [("reviews", .arr
     [.obj [("review_text", .str "this is a fine product"),
            ("rating", .num (.ofInt 0))]])]))]

/-- C8: the guard `round(avg, 2) if avg else None` is a truthiness
test, so one accepted review contributing the legitimate rating 0.0
yields `average_rating = None` even though the contributing set is
non-empty — contradicting the spec's "non-empty set yields the mean,
never None". -/
theorem claim_C8 :
    (mergeFiles c8Files none).map
      (fun o => (o.total_reviews, o.statistics.average_rating)) = .ok (1, none) ∧
    (mergeState c8Files none).map
      (fun st => st.all_reviews.map (fun r => jget r "rating"))
      = .ok [some (.num ⟨0, 1⟩)] := ⟨rfl, rfl⟩

/-! ### Claim C9: product identity and attribution -/

/-- C9: in every merge output each product has a non-empty (non-null)
product id, the ids are pairwise distinct, and the accepted reviews
are attributed to exactly one product each — the products' review
lists are, up to order, exactly the accepted reviews. -/
theorem claim_C9 (files : List (String × Option JVal)) (filt : Option String)
    (out : MergeOutput) (h : mergeFiles files filt = .ok out) :
    (∀ p ∈ out.products, p.product_id ≠ "") ∧
    (out.products.map (fun p => p.product_id)).Nodup ∧
    ∃ st, mergeState files filt = .ok st ∧
      st.all_reviews.Perm ((out.products.map (fun p => p.reviews)).flatten) := by
  unfold mergeFiles at h
  cases hm : mergeState files filt with
  | error e =>
    rw [hm] at h
    simp [Bind.bind, Except.bind] at h
  | ok st =>
    rw [hm] at h
    simp only [Bind.bind, Except.bind] at h
    have hinv := mergeState_inv hm
    obtain ⟨hprod, _⟩ := build_products h
    refine ⟨?_, ?_, st, rfl, ?_⟩
    · intro p hp
      rw [hprod] at hp
      rcases List.mem_map.mp hp with ⟨kv, hkv, rfl⟩
      rw [hinv.keys_eq kv hkv]
      exact hinv.keys_ne kv hkv
    · rw [hprod, List.map_map]
      have he : st.product_map.map ((fun p => p.product_id) ∘ (fun kv => kv.2))
          = mapKeys st.product_map :=
        List.map_congr_left (fun kv hkv => hinv.keys_eq kv hkv)
      rw [he]
      exact hinv.keys_nodup
    · rw [hprod, List.map_map]
      exact hinv.attributed

def c9Files : List (String × Option JVal) :=
  [("walmart_reviews_pans_20111122_030405.json", some (.obj [("reviews", .arr
     [.obj [("review_text", .str "sticks immediately, disappointing")]])])),
   ("b.json", some (.obj [("product_id", .str "555888"), ("reviews", .arr
     [.obj [("review_text", .str "the best pan I have ever owned")]])]))]

def c9Out : MergeOutput :=
  match mergeFiles c9Files none with
  | .ok out => out
  | .error _ =>
    ⟨0, 0, 0, ⟨initHist, none, none, none, 0, 0⟩, [], none⟩

/-- Witness for C9 at a two-file input with two distinct products. -/
theorem claim_C9_witness :
    (∀ p ∈ c9Out.products, p.product_id ≠ "") ∧
    (c9Out.products.map (fun p => p.product_id)).Nodup ∧
    ∃ st, mergeState c9Files none = .ok st ∧
      st.all_reviews.Perm ((c9Out.products.map (fun p => p.reviews)).flatten) :=
  claim_C9 c9Files none c9Out rfl

/-! ### Claim C10: the dedup set records filter-rejected candidates -/

def c10Files : List (String × Option JVal) :=
  [("r.json", some (.obj [("reviews", .arr
     [.obj [("review_text", .str "absolutely wonderful product"),
            ("sentiment", .str "negative")],
      .obj [("review_text", .str "absolutely wonderful product"),
            ("sentiment", .str "positive")]])]))]

def c10SecondOnly : List (String × Option JVal) :=
  [("r.json", some (.obj [("reviews", .arr
     [.obj [("review_text", .str "absolutely wonderful product"),
            ("sentiment", .str "positive")]])]))]

/-- C10: the duplicate check runs before the sentiment filter and
records even filter-rejected texts: under filter `positive`, a
negative review seen first poisons the dedup set, so the later
positive review with the same text is dropped and the output is empty
— while merging the positive review alone keeps it. -/
theorem claim_C10 :
    (mergeFiles c10Files (some "positive")).map
      (fun o => (o.total_reviews, o.products.map (fun p => p.reviews)))
      = .ok (0, [[]]) ∧
    (mergeFiles c10SecondOnly (some "positive")).map
      (fun o => o.total_reviews) = .ok 1 := ⟨rfl, rfl⟩

end Merge
